import Mathlib

/-!
Shallow embedding of the chaoschain consensus engine and mempool
(crates/core/src/lib.rs, crates/core/src/mempool.rs,
crates/consensus/src/manager.rs), with theorems settling the claims
about them.

Modelling conventions:
* Rust `u64`/`u8`/`usize` values are `Nat`, with `% 2^64` / `% 2^32`
  saturation or wrap-around made explicit exactly where the source has it.
* `[u8; 32]` / `[u8; 64]` byte arrays are `List Nat` of byte values.
* Rust `HashMap` is an association list with insert-overwrite semantics;
  tally loops over `values()` are folds over the stored entries (the sums
  computed are order-independent, matching the arbitrary iteration order).
* `Block::hash` uses the `sha2` crate; SHA-256 is implemented concretely
  below over byte lists.
-/

deriving instance DecidableEq for Except

set_option maxRecDepth 1000000

namespace Chaos

/-! ### SHA-256 (the `sha2` crate's `Sha256` as used by `Block::hash`) -/

/-- 32-bit word arithmetic: all SHA-256 word operations are mod `2^32`. -/
def w32 : Nat := 2 ^ 32

/-- Right-rotate a 32-bit word by `n` bits. -/
def rotr (n x : Nat) : Nat := (x / 2 ^ n + (x % 2 ^ n) * 2 ^ (32 - n)) % w32

/-- Right-shift a 32-bit word by `n` bits. -/
def shr (n x : Nat) : Nat := x / 2 ^ n

/-- SHA-256 round constants (decimal values of the standard table). -/
def sha256K : List Nat :=
  [1116352408, 1899447441, 3049323471, 3921009573, 961987163, 1508970993,
   2453635748, 2870763221, 3624381080, 310598401, 607225278, 1426881987,
   1925078388, 2162078206, 2614888103, 3248222580, 3835390401,
   4022224774, 264347078, 604807628, 770255983, 1249150122, 1555081692,
   1996064986, 2554220882, 2821834349, 2952996808, 3210313671,
   3336571891, 3584528711, 113926993, 338241895, 666307205, 773529912,
   1294757372, 1396182291, 1695183700, 1986661051, 2177026350,
   2456956037, 2730485921, 2820302411, 3259730800, 3345764771,
   3516065817, 3600352804, 4094571909, 275423344, 430227734, 506948616,
   659060556, 883997877, 958139571, 1322822218, 1537002063, 1747873779,
   1955562222, 2024104815, 2227730452, 2361852424, 2428436474,
   2756734187, 3204031479, 3329325298]

/-- The eight 32-bit words of the SHA-256 compression state. -/
structure Sha256State where
  h0 : Nat
  h1 : Nat
  h2 : Nat
  h3 : Nat
  h4 : Nat
  h5 : Nat
  h6 : Nat
  h7 : Nat
  deriving Repr, DecidableEq

/-- SHA-256 initial hash values (decimal). -/
def sha256Init : Sha256State :=
  ⟨1779033703, 3144134277, 1013904242, 2773480762,
   1359893119, 2600822924, 528734635, 1541459225⟩

/-- Interpret four consecutive bytes as a big-endian 32-bit word. -/
def word32OfBytes : List Nat → Nat
  | b0 :: b1 :: b2 :: b3 :: _ => ((b0 * 256 + b1) * 256 + b2) * 256 + b3
  | _ => 0

/-- Split a byte list into the sixteen 32-bit words of one 64-byte chunk. -/
def chunkWords (bytes : List Nat) : List Nat :=
  (List.range 16).map fun i => word32OfBytes (bytes.drop (4 * i))

/-- Message-schedule extension step: `w[i] = w[i-16] + s0(w[i-15]) + w[i-7] + s1(w[i-2])`. -/
def scheduleStep (w : List Nat) : Nat :=
  let n := w.length
  let s0 := (rotr 7 (w.getD (n - 15) 0)) ^^^ (rotr 18 (w.getD (n - 15) 0)) ^^^
            (shr 3 (w.getD (n - 15) 0))
  let s1 := (rotr 17 (w.getD (n - 2) 0)) ^^^ (rotr 19 (w.getD (n - 2) 0)) ^^^
            (shr 10 (w.getD (n - 2) 0))
  (w.getD (n - 16) 0 + s0 + w.getD (n - 7) 0 + s1) % w32

/-- Extend sixteen schedule words to sixty-four. -/
def extendSchedule (w16 : List Nat) : List Nat :=
  (List.range 48).foldl (fun w _ => w ++ [scheduleStep w]) w16

/-- One SHA-256 compression round for round constant `k` and schedule word `w`. -/
def sha256Round (s : Sha256State) (kw : Nat × Nat) : Sha256State :=
  let a := s.h0; let b := s.h1; let c := s.h2; let d := s.h3
  let e := s.h4; let f := s.h5; let g := s.h6; let h := s.h7
  let S1 := (rotr 6 e) ^^^ (rotr 11 e) ^^^ (rotr 25 e)
  let ch := (e &&& f) ^^^ ((w32 - 1 - e % w32) &&& g)
  let temp1 := (h + S1 + ch + kw.1 + kw.2) % w32
  let S0 := (rotr 2 a) ^^^ (rotr 13 a) ^^^ (rotr 22 a)
  let maj := (a &&& b) ^^^ (a &&& c) ^^^ (b &&& c)
  let temp2 := (S0 + maj) % w32
  ⟨(temp1 + temp2) % w32, a, b, c, (d + temp1) % w32, e, f, g⟩

/-- Compress one 64-byte chunk into the running state. -/
def sha256Compress (s : Sha256State) (chunk : List Nat) : Sha256State :=
  let w := extendSchedule (chunkWords chunk)
  let t := (sha256K.zip w).foldl sha256Round s
  ⟨(s.h0 + t.h0) % w32, (s.h1 + t.h1) % w32, (s.h2 + t.h2) % w32,
   (s.h3 + t.h3) % w32, (s.h4 + t.h4) % w32, (s.h5 + t.h5) % w32,
   (s.h6 + t.h6) % w32, (s.h7 + t.h7) % w32⟩

/-- Big-endian byte expansion of a value into `n` bytes. -/
def beBytes (n : Nat) (x : Nat) : List Nat :=
  (List.range n).map fun i => x / 2 ^ (8 * (n - 1 - i)) % 256

/-- SHA-256 padding: append `0x80`, zero bytes, and the 64-bit bit length. -/
def sha256Pad (msg : List Nat) : List Nat :=
  let l := msg.length
  let zeros := (64 - (l + 9) % 64) % 64
  msg ++ [0x80] ++ List.replicate zeros 0 ++ beBytes 8 (8 * l)

/-- Split a byte list into 64-byte chunks, structurally recursing on a fuel
bound (the list shrinks by 64 ≥ 1 bytes per step, so its length is enough fuel). -/
def chunks64Fuel : Nat → List Nat → List (List Nat)
  | 0, _ => []
  | _, [] => []
  | fuel + 1, b :: bs => (b :: bs).take 64 :: chunks64Fuel fuel ((b :: bs).drop 64)

/-- Split a byte list into 64-byte chunks (the input length is a multiple of 64). -/
def chunks64 (bytes : List Nat) : List (List Nat) :=
  chunks64Fuel bytes.length bytes

/-- SHA-256 of a byte list: 32 output bytes. -/
def sha256 (msg : List Nat) : List Nat :=
  let s := (chunks64 (sha256Pad msg)).foldl sha256Compress sha256Init
  beBytes 4 s.h0 ++ beBytes 4 s.h1 ++ beBytes 4 s.h2 ++ beBytes 4 s.h3 ++
  beBytes 4 s.h4 ++ beBytes 4 s.h5 ++ beBytes 4 s.h6 ++ beBytes 4 s.h7

theorem sha256_length (msg : List Nat) : (sha256 msg).length = 32 := by
  simp [sha256, beBytes]

/-! ### Core data model (crates/core/src/lib.rs) -/

/-- `chaoschain_core::Error`. -/
inductive CoreError where
  | invalidSignature
  | invalidStateTransition
  | internal (msg : String)
  deriving Repr, DecidableEq

/-- `chaoschain_core::Transaction`: `sender: [u8;32]`, `nonce: u64`,
`payload: Vec<u8>`, `signature: [u8;64]` (byte arrays as byte lists). -/
structure Transaction where
  sender : List Nat
  nonce : Nat
  payload : List Nat
  signature : List Nat
  deriving Repr, DecidableEq

/-- `u64::to_le_bytes`. -/
def le64 (x : Nat) : List Nat :=
  (List.range 8).map fun i => x / 2 ^ (8 * i) % 256

/-- `u64::to_be_bytes`. -/
def be64 (x : Nat) : List Nat := beBytes 8 x

/-- `chaoschain_core::Block`. `drama_level` is a `u8` value. -/
structure Block where
  parent_hash : List Nat
  height : Nat
  transactions : List Transaction
  state_root : List Nat
  proposer_sig : List Nat
  drama_level : Nat
  producer_mood : String
  producer_id : String
  deriving Repr, DecidableEq

/-- `str::as_bytes`, with each byte modelled by the character's code point
(identical to the UTF-8 bytes for the ASCII strings the claims use). -/
def strBytes (s : String) : List Nat := s.toList.map Char.toNat

/-- The exact byte sequence `Block::hash` feeds to the SHA-256 hasher:
`height.to_be_bytes`, then for each transaction its `sender`, `nonce.to_be_bytes`,
`payload` and `signature`, then `proposer_sig`, `[drama_level]` and
`producer_mood.as_bytes()`.  (`parent_hash`, `state_root` and `producer_id`
are not fed to the hasher.) -/
def Block.hashInput (b : Block) : List Nat :=
  be64 b.height ++
  (b.transactions.map fun tx =>
    tx.sender ++ be64 tx.nonce ++ tx.payload ++ tx.signature).flatten ++
  b.proposer_sig ++ [b.drama_level] ++ strBytes b.producer_mood

/-- `Block::hash`: SHA-256 of the block's hash input bytes. -/
def Block.hash (b : Block) : List Nat := sha256 b.hashInput

/-! ### Mempool (crates/core/src/mempool.rs) -/

/-- `mempool::MempoolTx`. -/
structure MempoolTx where
  transaction : Transaction
  timestamp : Nat
  priority : Nat
  deriving Repr, DecidableEq

instance : Inhabited MempoolTx := ⟨⟨⟨[], 0, [], []⟩, 0, 0⟩⟩

/-- `impl Ord for MempoolTx`: `self.priority.cmp(&other.priority).reverse()`
(the source comment reads "Higher priority comes first"). -/
def MempoolTx.cmp (a b : MempoolTx) : Ordering :=
  (compare a.priority b.priority).swap

/-- `std::collections::BinaryHeap` sift-up after a push: while the element at
`pos` is strictly greater (in `MempoolTx.cmp`) than its parent at `(pos-1)/2`,
swap them.  Structural fuel recursion; the parent index is strictly smaller,
so `pos` is enough fuel. -/
def siftUp : Nat → List MempoolTx → Nat → List MempoolTx
  | 0, data, _ => data
  | fuel + 1, data, pos =>
    if pos = 0 then data
    else
      let parent := (pos - 1) / 2
      let x := data.getD pos default
      let p := data.getD parent default
      if MempoolTx.cmp x p = .gt then
        siftUp fuel ((data.set pos p).set parent x) parent
      else data

/-- `BinaryHeap::push`: append the element to the backing vector, then sift up. -/
def heapPush (data : List MempoolTx) (x : MempoolTx) : List MempoolTx :=
  siftUp data.length (data ++ [x]) data.length

/-- `mempool::Mempool`: `txs` is the hash-keyed `HashMap` (modelled as an
association list), `queue` the `BinaryHeap` backing vector in its internal
order (`BinaryHeap::iter` visits the backing vector in order). -/
structure Mempool where
  txs : List (List Nat × MempoolTx)
  queue : List MempoolTx
  max_size : Nat
  deriving Repr, DecidableEq

/-- `Mempool::new`. -/
def Mempool.new (max_size : Nat) : Mempool := ⟨[], [], max_size⟩

/-- `Mempool::hash_tx`: the BLAKE3 digest of `sender ++ nonce.to_le_bytes()
++ payload`.  The digest is modelled by its preimage byte string: the digest
is a deterministic function of exactly these bytes, the engine uses it only
as a dedup key, and no claim depends on digest values or collisions. -/
def hash_tx (tx : Transaction) : List Nat :=
  tx.sender ++ le64 tx.nonce ++ tx.payload

/-- `HashMap::contains_key` on the `txs` table. -/
def Mempool.containsKey (m : Mempool) (h : List Nat) : Bool :=
  m.txs.any fun p => p.1 == h

/-- `Mempool::add_tx`: no-op `Ok` on a duplicate content hash, `Err` when the
pool is full, otherwise insert into both the table and the heap.  `now` is
the wall-clock second the source reads for the timestamp. -/
def Mempool.add_tx (m : Mempool) (tx : Transaction) (priority now : Nat) :
    Except CoreError Unit × Mempool :=
  let h := hash_tx tx
  let mtx : MempoolTx := ⟨tx, now, priority⟩
  if m.containsKey h then (.ok (), m)
  else if m.max_size ≤ m.txs.length then
    (.error (.internal "Mempool is full"), m)
  else
    (.ok (), { m with txs := m.txs ++ [(h, mtx)],
                      queue := heapPush m.queue mtx })

/-- `Mempool::get_top`: iterate the heap's backing vector in its internal
order, `take n`, keep entries still present in the table, return their
transactions. -/
def Mempool.get_top (m : Mempool) (n : Nat) : List Transaction :=
  ((m.queue.take n).filter fun t =>
    m.containsKey (hash_tx t.transaction)).map (·.transaction)

/-! ### Consensus engine (crates/consensus/src/manager.rs, lib.rs)

The manager funnels every mutation through one mailbox task, so each public
operation executes atomically over `ConsensusState`; the embedding passes the
state explicitly through the handler bodies. -/

/-- `chaoschain_consensus::Error`. -/
inductive ConsensusError where
  | insufficientStake
  | timeout
  | agent (msg : String)
  | core (e : CoreError)
  | internal (msg : String)
  deriving Repr, DecidableEq

/-- `chaoschain_consensus::Vote`. -/
structure Vote where
  agent_id : String
  block_hash : List Nat
  approve : Bool
  reason : String
  meme_url : Option String
  signature : List Nat
  deriving Repr, DecidableEq

/-- `manager::VotingState`. -/
inductive VotingState where
  | Inactive
  | Active
  | Completed
  deriving Repr, DecidableEq

/-- `manager::ConsensusState`.  The two `HashMap`s are association lists with
insert-overwrite semantics. -/
structure ConsensusState where
  current_block : Option Block
  votes : List (String × Vote)
  voting_state : VotingState
  validator_feedback : List (String × List String)
  deriving Repr, DecidableEq

/-- `ConsensusState::new`. -/
def ConsensusState.new : ConsensusState := ⟨none, [], .Inactive, []⟩

/-- `HashMap::insert` on the vote map keyed by `agent_id`: overwrite the
existing entry for the key, or add a new one. -/
def votesInsert (m : List (String × Vote)) (k : String) (v : Vote) :
    List (String × Vote) :=
  if m.any (fun p => p.1 == k) then
    m.map fun p => if p.1 == k then (k, v) else p
  else m ++ [(k, v)]

/-- `u64::MAX`. -/
def u64Max : Nat := 2 ^ 64 - 1

/-- `u64::saturating_add`. -/
def satAdd (a b : Nat) : Nat := min (a + b) u64Max

/-- The tally loop of `process_vote`: for every vote currently in the map it
saturating-adds the *current call's* `stake` argument to the approve or the
reject side according to that vote's `approve` flag. -/
def tallyStakes (votes : List (String × Vote)) (stake : Nat) : Nat × Nat :=
  votes.foldl
    (fun acc p =>
      if p.2.approve then (satAdd acc.1 stake, acc.2)
      else (acc.1, satAdd acc.2 stake))
    (0, 0)

/-- `ConsensusManager::process_vote`.  `thresholdStake` stands for the value
`(total_stake as f64 * finality_threshold) as u64` the manager computes once
from its configuration; it is passed as an explicit natural-number parameter
(for the configuration used by the spec's scenario, `total_stake = 300` and
`finality_threshold = 0.67`, the IEEE-754 product is exactly `201.0`, so the
value is `201`). -/
def process_vote (s : ConsensusState) (vote : Vote) (stake thresholdStake : Nat) :
    Except ConsensusError Bool × ConsensusState :=
  if s.voting_state ≠ .Active then
    (.error (.internal "No active voting round"), s)
  else
    match s.current_block with
    | some block =>
      if vote.block_hash ≠ block.hash then
        (.error (.internal "Vote for wrong block"), s)
      else
        let votes := votesInsert s.votes vote.agent_id vote
        let t := tallyStakes votes stake
        if thresholdStake ≤ t.1 then
          (.ok true, { s with votes := votes, voting_state := .Completed })
        else if thresholdStake ≤ t.2 then
          (.ok false, { s with votes := votes, voting_state := .Completed })
        else
          (.error .insufficientStake, { s with votes := votes })
    | none => (.error (.internal "No active voting round"), s)

/-- `ConsensusManager::add_vote`: sends a `Vote` message to the mailbox task
and awaits the response; over the shared state this is exactly one
`process_vote` step. -/
def add_vote (s : ConsensusState) (vote : Vote) (stake thresholdStake : Nat) :
    Except ConsensusError Bool × ConsensusState :=
  process_vote s vote stake thresholdStake

/-- `ConsensusManager::start_voting_round`: rejected while a round is
`Active`; otherwise the `StartVoting` handler installs the block, clears the
vote map and activates the round (the feedback store is untouched). -/
def start_voting_round (s : ConsensusState) (block : Block) :
    Except ConsensusError Unit × ConsensusState :=
  match s.voting_state with
  | .Active =>
    (.error (.internal
      "Cannot start new voting round while previous round is active"), s)
  | _ =>
    (.ok (), { s with current_block := some block, votes := [],
                      voting_state := .Active })

/-- `HashMap::entry(producer_id).or_default().push(feedback)` on the
feedback map: append to the existing entry, or add a fresh singleton one. -/
def feedbackPush (fb : List (String × List String)) (producer_id feedback : String) :
    List (String × List String) :=
  if fb.any (fun p => p.1 == producer_id) then
    fb.map fun p =>
      if p.1 == producer_id then (p.1, p.2 ++ [feedback]) else p
  else fb ++ [(producer_id, [feedback])]

/-- The `StoreFeedback` handler:
`validator_feedback.entry(producer_id).or_default().push(feedback)`. -/
def store_feedback (s : ConsensusState) (producer_id feedback : String) :
    ConsensusState :=
  { s with validator_feedback :=
      feedbackPush s.validator_feedback producer_id feedback }

/-- The `GetAndClearFeedback` handler:
`validator_feedback.remove(&producer_id).unwrap_or_default()`. -/
def get_and_clear_feedback (s : ConsensusState) (producer_id : String) :
    List String × ConsensusState :=
  ((s.validator_feedback.lookup producer_id).getD [],
   { s with validator_feedback :=
       s.validator_feedback.filter fun p => !(p.1 == producer_id) })

/-- Run a sequence of `add_vote` calls against the state, collecting each
call's result in order. -/
def run_votes (s : ConsensusState) (calls : List (Vote × Nat))
    (thresholdStake : Nat) :
    List (Except ConsensusError Bool) × ConsensusState :=
  match calls with
  | [] => ([], s)
  | c :: rest =>
    let r := process_vote s c.1 c.2 thresholdStake
    let tail := run_votes r.2 rest thresholdStake
    (r.1 :: tail.1, tail.2)

/-! ### Concrete inputs used by the theorems -/

/-- A transaction tagged by its intended priority `p` (distinct sender and
nonce per priority, so the three transactions are pairwise distinct). -/
def txPrio (p : Nat) : Transaction :=
  ⟨List.replicate 32 p, p, [], List.replicate 64 0⟩

/-- A fresh mempool of capacity 1000 after adding the priority-10,
priority-30 and priority-20 transactions, in that insertion order. -/
def mempoolC1 : Mempool :=
  ((((Mempool.new 1000).add_tx (txPrio 10) 10 100).2.add_tx
    (txPrio 30) 30 101).2.add_tx (txPrio 20) 20 102).2

/-- A concrete candidate block produced by `"alice"`. -/
def cBlock : Block :=
  ⟨List.replicate 32 0, 1, [], List.replicate 32 0, List.replicate 64 0,
   5, "chaotic", "alice"⟩

/-- A vote on `cBlock` (its `block_hash` is `cBlock`'s real hash). -/
def cVote (aid : String) (app : Bool) : Vote :=
  ⟨aid, cBlock.hash, app, "such drama", none, List.replicate 64 0⟩

/-- The manager state right after `start_voting_round` installed `cBlock`. -/
def cState : ConsensusState :=
  (start_voting_round ConsensusState.new cBlock).2

/-- The spec's re-vote scenario: v1 approve, v2 approve, v1 reject,
v3 approve, v1 approve, each with stake 100. -/
def c2Calls : List (Vote × Nat) :=
  [(cVote "v1" true, 100), (cVote "v2" true, 100), (cVote "v1" false, 100),
   (cVote "v3" true, 100), (cVote "v1" true, 100)]

/-- `cState` after one approving vote of stake 100 was recorded. -/
def c3State : ConsensusState := (add_vote cState (cVote "a" true) 100 201).2

/-- `cBlock` with only its `parent_hash` changed. -/
def cBlockParent : Block := { cBlock with parent_hash := List.replicate 32 7 }

/-- `cBlock` with only its `state_root` changed. -/
def cBlockRoot : Block := { cBlock with state_root := List.replicate 32 7 }

/-- `cBlock` with only its `producer_id` changed. -/
def cBlockProducer : Block := { cBlock with producer_id := "bob" }

/-- A rejecting vote on `cBlock` with a concrete reason string. -/
def c5Vote : Vote :=
  ⟨"v1", cBlock.hash, false, "too dramatic", none, List.replicate 64 0⟩

/-! ### Helper lemmas -/

theorem lookup_cons_key {β : Type} (k : String) (v : β)
    (t : List (String × β)) :
    List.lookup k ((k, v) :: t) = some v := by
  simp [List.lookup_cons]

theorem lookup_cons_skip {β : Type} (k k2 : String) (v : β)
    (t : List (String × β)) (h : (k == k2) = false) :
    List.lookup k ((k2, v) :: t) = List.lookup k t := by
  rw [List.lookup_cons]
  simp [h]

theorem beq_comm_false (a b : String) (h : (a == b) = false) :
    (b == a) = false := by
  cases hb : b == a
  · rfl
  · exact absurd (beq_iff_eq.mpr (beq_iff_eq.mp hb).symm) (by simp [h])

theorem lookup_eq_none_of_any_false {β : Type} (t : List (String × β))
    (k : String) (h : (t.any fun p => p.1 == k) = false) :
    List.lookup k t = none := by
  induction t with
  | nil => simp
  | cons p t ih =>
    obtain ⟨p1, p2⟩ := p
    simp only [List.any_cons, Bool.or_eq_false_iff] at h
    rw [lookup_cons_skip _ _ _ _ (beq_comm_false p1 k h.1)]
    exact ih h.2

theorem lookup_map_update {β : Type} (t : List (String × β)) (k q : String)
    (g : β → β) (hq : (q == k) = false) :
    List.lookup q (t.map fun p => if p.1 == k then (p.1, g p.2) else p) =
      List.lookup q t := by
  induction t with
  | nil => simp
  | cons p t ih =>
    obtain ⟨p1, p2⟩ := p
    rw [List.map_cons]
    by_cases h : p1 = k
    · subst h
      simp only [beq_self_eq_true, if_true]
      rw [lookup_cons_skip _ _ _ _ hq, lookup_cons_skip _ _ _ _ hq]
      exact ih
    · simp only [beq_false_of_ne h, Bool.false_eq_true, if_false]
      cases hqq : q == p1
      · rw [lookup_cons_skip _ _ _ _ hqq, lookup_cons_skip _ _ _ _ hqq]
        exact ih
      · have hqp : q = p1 := beq_iff_eq.mp hqq
        subst hqp
        rw [lookup_cons_key, lookup_cons_key]

theorem lookup_append_single_ne {β : Type} (t : List (String × β))
    (k q : String) (x : β) (hq : (q == k) = false) :
    List.lookup q (t ++ [(k, x)]) = List.lookup q t := by
  induction t with
  | nil =>
    rw [List.nil_append, lookup_cons_skip _ _ _ _ hq]
  | cons p t ih =>
    obtain ⟨p1, p2⟩ := p
    rw [List.cons_append]
    cases hqq : q == p1
    · rw [lookup_cons_skip _ _ _ _ hqq, lookup_cons_skip _ _ _ _ hqq]
      exact ih
    · have hqp : q = p1 := beq_iff_eq.mp hqq
      subst hqp
      rw [lookup_cons_key, lookup_cons_key]

theorem lookup_append_single_self {β : Type} (t : List (String × β))
    (k : String) (x : β) (h : (t.any fun p => p.1 == k) = false) :
    List.lookup k (t ++ [(k, x)]) = some x := by
  induction t with
  | nil =>
    rw [List.nil_append]
    exact lookup_cons_key k x []
  | cons p t ih =>
    obtain ⟨p1, p2⟩ := p
    simp only [List.any_cons, Bool.or_eq_false_iff] at h
    rw [List.cons_append, lookup_cons_skip _ _ _ _ (beq_comm_false p1 k h.1)]
    exact ih h.2

theorem lookup_map_update_self {β : Type} (t : List (String × β))
    (k : String) (g : β → β)
    (h : (t.any fun p => p.1 == k) = true) :
    List.lookup k (t.map fun p => if p.1 == k then (p.1, g p.2) else p) =
      (t.lookup k).map g := by
  induction t with
  | nil => simp at h
  | cons p t ih =>
    obtain ⟨p1, p2⟩ := p
    rw [List.map_cons]
    by_cases hh : p1 = k
    · subst hh
      simp only [beq_self_eq_true, if_true]
      rw [lookup_cons_key, lookup_cons_key]
      rfl
    · have hpk : (p1 == k) = false := beq_false_of_ne hh
      simp only [hpk, Bool.false_eq_true, if_false]
      rw [lookup_cons_skip _ _ _ _ (beq_comm_false p1 k hpk),
          lookup_cons_skip _ _ _ _ (beq_comm_false p1 k hpk)]
      simp only [List.any_cons, hpk, Bool.false_or] at h
      exact ih h

theorem lookup_isSome_of_any_true {β : Type} (t : List (String × β))
    (k : String) (h : (t.any fun p => p.1 == k) = true) :
    ∃ x, t.lookup k = some x := by
  induction t with
  | nil => simp at h
  | cons p t ih =>
    obtain ⟨p1, p2⟩ := p
    by_cases hh : p1 = k
    · refine ⟨p2, ?_⟩
      rw [hh]
      exact lookup_cons_key k p2 t
    · have hpk : (p1 == k) = false := beq_false_of_ne hh
      rw [lookup_cons_skip _ _ _ _ (beq_comm_false p1 k hpk)]
      simp only [List.any_cons, hpk, Bool.false_or] at h
      exact ih h

theorem votesInsert_lookup (m : List (String × Vote)) (k : String) (v : Vote) :
    (votesInsert m k v).lookup k = some v := by
  unfold votesInsert
  by_cases h2 : m.any (fun p => p.1 == k)
  · simp only [h2, if_true]
    have hfun : (fun p : String × Vote => if p.1 == k then (k, v) else p) =
        (fun p : String × Vote =>
          if p.1 == k then (p.1, (fun _ => v) p.2) else p) := by
      funext p
      cases hb : p.1 == k
      · simp only [hb, Bool.false_eq_true, if_false]
      · simp only [hb, if_true, beq_iff_eq.mp hb]
    obtain ⟨x, hx⟩ := lookup_isSome_of_any_true m k h2
    rw [hfun, lookup_map_update_self m k (fun _ => v) h2, hx]
    rfl
  · have h2f : (m.any fun p => p.1 == k) = false := by
      cases hb : (m.any fun p => p.1 == k)
      · rfl
      · exact absurd hb h2
    simp only [h2f, Bool.false_eq_true, if_false]
    exact lookup_append_single_self m k v h2f

theorem feedbackPush_lookup_self (fb : List (String × List String))
    (pid r : String) :
    (feedbackPush fb pid r).lookup pid =
      some ((fb.lookup pid).getD [] ++ [r]) := by
  unfold feedbackPush
  by_cases h2 : fb.any (fun p => p.1 == pid)
  · simp only [h2, if_true]
    rw [lookup_map_update_self fb pid (fun l => l ++ [r]) h2]
    obtain ⟨x, hx⟩ := lookup_isSome_of_any_true fb pid h2
    rw [hx]
    rfl
  · have h2f : (fb.any fun p => p.1 == pid) = false := by
      cases hb : (fb.any fun p => p.1 == pid)
      · rfl
      · exact absurd hb h2
    simp only [h2f, Bool.false_eq_true, if_false]
    rw [lookup_eq_none_of_any_false fb pid h2f]
    simpa using lookup_append_single_self fb pid [r] h2f

theorem feedbackPush_lookup_ne (fb : List (String × List String))
    (pid r q : String) (hq : q ≠ pid) :
    (feedbackPush fb pid r).lookup q = fb.lookup q := by
  have hqp : (q == pid) = false := beq_false_of_ne hq
  unfold feedbackPush
  by_cases h2 : fb.any (fun p => p.1 == pid)
  · simp only [h2, if_true]
    exact lookup_map_update fb pid q (fun l => l ++ [r]) hqp
  · have h2f : (fb.any fun p => p.1 == pid) = false := by
      cases hb : (fb.any fun p => p.1 == pid)
      · rfl
      · exact absurd hb h2
    simp only [h2f, Bool.false_eq_true, if_false]
    exact lookup_append_single_ne fb pid q [r] hqp

theorem lookup_filterOut_self (fb : List (String × List String))
    (pid : String) :
    (fb.filter fun p => !(p.1 == pid)).lookup pid = none := by
  induction fb with
  | nil => simp
  | cons p t ih =>
    obtain ⟨p1, p2⟩ := p
    by_cases h : p1 = pid
    · simp only [List.filter_cons, h, beq_self_eq_true, Bool.not_true,
        Bool.false_eq_true, if_false]
      exact ih
    · have hpk : (p1 == pid) = false := beq_false_of_ne h
      simp only [List.filter_cons, hpk, Bool.not_false, if_true]
      rw [lookup_cons_skip _ _ _ _ (beq_comm_false p1 pid hpk)]
      exact ih

theorem lookup_filterOut_ne (fb : List (String × List String))
    (pid q : String) (hq : q ≠ pid) :
    (fb.filter fun p => !(p.1 == pid)).lookup q = fb.lookup q := by
  induction fb with
  | nil => simp
  | cons p t ih =>
    obtain ⟨p1, p2⟩ := p
    by_cases h : p1 = pid
    · simp only [List.filter_cons, h, beq_self_eq_true, Bool.not_true,
        Bool.false_eq_true, if_false]
      rw [lookup_cons_skip _ _ _ _ (beq_false_of_ne hq)]
      exact ih
    · have hpk : (p1 == pid) = false := beq_false_of_ne h
      simp only [List.filter_cons, hpk, Bool.not_false, if_true]
      cases hqq : q == p1
      · rw [lookup_cons_skip _ _ _ _ hqq, lookup_cons_skip _ _ _ _ hqq]
        exact ih
      · have hqp : q = p1 := beq_iff_eq.mp hqq
        subst hqp
        rw [lookup_cons_key, lookup_cons_key]
theorem tallyStakes_go (votes : List (String × Vote)) (stake a r : Nat)
    (ha : a ≤ u64Max) (hr : r ≤ u64Max) :
    votes.foldl
      (fun acc p =>
        if p.2.approve then (satAdd acc.1 stake, acc.2)
        else (acc.1, satAdd acc.2 stake)) (a, r) =
    (min (a + stake * (votes.filter (fun p => p.2.approve)).length) u64Max,
     min (r + stake * (votes.filter (fun p => !p.2.approve)).length) u64Max) := by
  induction votes generalizing a r with
  | nil =>
    simp only [List.foldl_nil, List.filter_nil, List.length_nil,
      Nat.mul_zero, Nat.add_zero]
    rw [Nat.min_eq_left ha, Nat.min_eq_left hr]
  | cons p t ih =>
    by_cases hp : p.2.approve
    · have hb : satAdd a stake ≤ u64Max := Nat.min_le_right _ _
      rw [List.foldl_cons]
      simp only [hp, if_true]
      rw [ih (satAdd a stake) r hb hr]
      simp only [List.filter_cons, hp, Bool.not_true, Bool.false_eq_true,
        if_false, if_true, List.length_cons, satAdd, Prod.mk.injEq]
      refine ⟨?_, trivial⟩
      rw [Nat.mul_succ]
      omega
    · have hp' : p.2.approve = false := by
        cases hpp : p.2.approve
        · rfl
        · exact absurd hpp hp
      have hb : satAdd r stake ≤ u64Max := Nat.min_le_right _ _
      rw [List.foldl_cons]
      simp only [hp', Bool.false_eq_true, if_false]
      rw [ih a (satAdd r stake) ha hb]
      simp only [List.filter_cons, hp', Bool.not_false, Bool.false_eq_true,
        if_false, if_true, List.length_cons, satAdd, Prod.mk.injEq]
      refine ⟨trivial, ?_⟩
      rw [Nat.mul_succ]
      omega

theorem process_vote_not_active (s : ConsensusState) (v : Vote)
    (stake thr : Nat) (h : s.voting_state ≠ .Active) :
    process_vote s v stake thr =
      (.error (.internal "No active voting round"), s) := by
  unfold process_vote
  simp [h]

theorem run_votes_not_active (s : ConsensusState)
    (calls : List (Vote × Nat)) (thr : Nat)
    (h : s.voting_state ≠ .Active) :
    run_votes s calls thr =
      (List.replicate calls.length
        (.error (.internal "No active voting round")), s) := by
  induction calls with
  | nil => simp [run_votes]
  | cons c rest ih =>
    simp [run_votes, process_vote_not_active s c.1 c.2 thr h, ih,
      List.replicate_succ]

/-! ### Claim theorems -/

/-- C1 (refuting the claimed ordering): after adding transactions with the
pairwise-distinct priorities 10, 30, 20 in that insertion order, `get_top 2`
returns the priority-10 and priority-30 transactions — not the claimed
`[30, 20]` — and `get_top 3` returns `[10, 30, 20]`, not `[30, 20, 10]`.
`impl Ord for MempoolTx` reverses the priority comparison (despite its
"Higher priority comes first" comment) and `get_top` iterates the heap's
backing vector in storage order, so the output is not in descending
priority order, contradicting the source's own `test_mempool_ordering`
test and doc comments. -/
theorem get_top_returns_heap_order_not_priority_order :
    mempoolC1.get_top 2 = [txPrio 10, txPrio 30] ∧
    mempoolC1.get_top 3 = [txPrio 10, txPrio 30, txPrio 20] ∧
    [txPrio 10, txPrio 30] ≠ [txPrio 30, txPrio 20] := by
  decide

/-- C2: in the spec's scenario (total_stake 300, threshold 0.67 giving
threshold stake 201, three validators of stake 100; v1 approve, v2 approve,
v1 reject, v3 approve, v1 approve) the first four `add_vote` calls return
`InsufficientStake` and the fifth returns `Ok(true)`; after each call the
vote map holds exactly one entry per agent that has voted, with the agent's
latest `approve` value (re-voting overwrites, it does not add stake). -/
theorem revote_overwrites_scenario :
    (run_votes cState c2Calls 201).1 =
      [.error .insufficientStake, .error .insufficientStake,
       .error .insufficientStake, .error .insufficientStake, .ok true] ∧
    (run_votes cState (c2Calls.take 1) 201).2.votes.map
        (fun p => (p.1, p.2.approve)) = [("v1", true)] ∧
    (run_votes cState (c2Calls.take 2) 201).2.votes.map
        (fun p => (p.1, p.2.approve)) = [("v1", true), ("v2", true)] ∧
    (run_votes cState (c2Calls.take 3) 201).2.votes.map
        (fun p => (p.1, p.2.approve)) = [("v1", false), ("v2", true)] ∧
    (run_votes cState (c2Calls.take 4) 201).2.votes.map
        (fun p => (p.1, p.2.approve)) =
      [("v1", false), ("v2", true), ("v3", true)] ∧
    (run_votes cState c2Calls 201).2.votes.map
        (fun p => (p.1, p.2.approve)) =
      [("v1", true), ("v2", true), ("v3", true)] := by
  decide

/-- C3 (counterexample to the exact-product claim): with one approving vote
already recorded, an `add_vote` carrying a second approving vote with stake
`u64::MAX` leaves two approving votes in the map, yet the tally the call
computes for the approve side is `u64::MAX`, not the claimed
`stake × count = u64::MAX × 2`: the loop uses `saturating_add`. -/
theorem tally_saturates_counterexample :
    ((add_vote c3State (cVote "b" true) u64Max 300).2.votes.filter
        (fun p => p.2.approve)).length = 2 ∧
    (tallyStakes (add_vote c3State (cVote "b" true) u64Max 300).2.votes
        u64Max).1 = u64Max ∧
    u64Max ≠ u64Max * 2 := by
  decide

/-- C3 (amended): the tally computed by an `add_vote` call equals the
current call's stake argument times the number of recorded approving
(resp. rejecting) votes, saturated at `u64::MAX`; the stake values supplied
with earlier calls do not enter the tally at all, so the verdict depends
only on the vote counts and the latest call's stake argument. -/
theorem tally_is_latest_stake_times_counts (votes : List (String × Vote))
    (stake : Nat) :
    tallyStakes votes stake =
      (min (stake * (votes.filter (fun p => p.2.approve)).length) u64Max,
       min (stake * (votes.filter (fun p => !p.2.approve)).length) u64Max) := by
  unfold tallyStakes
  rw [tallyStakes_go votes stake 0 0 (Nat.zero_le _) (Nat.zero_le _)]
  simp

/-- C4 (refuting the all-fields claim): `Block::hash` feeds only `height`,
`transactions`, `proposer_sig`, `drama_level` and `producer_mood` to the
hasher, so blocks that differ only in `parent_hash`, `state_root` or
`producer_id` hash identically, contradicting the claim (and the spec's
"all fields in fixed order" / "any field change MUST change the hash"). -/
theorem block_hash_ignores_three_fields :
    cBlock.hash = cBlockParent.hash ∧ cBlock ≠ cBlockParent ∧
    cBlock.hash = cBlockRoot.hash ∧ cBlock ≠ cBlockRoot ∧
    cBlock.hash = cBlockProducer.hash ∧ cBlock ≠ cBlockProducer := by
  refine ⟨congrArg sha256 (by decide), by decide,
          congrArg sha256 (by decide), by decide,
          congrArg sha256 (by decide), by decide⟩

/-- C5 (counterexample to automatic feedback): a rejecting vote accepted by
`add_vote` during an `Active` round is recorded in the vote map, yet the
feedback store stays empty — `process_vote` never touches
`validator_feedback`, so no reason is appended for the block's producer. -/
theorem reject_vote_stores_no_feedback_counterexample :
    c5Vote.approve = false ∧
    cState.voting_state = .Active ∧
    (cState.current_block.map Block.producer_id) = some "alice" ∧
    (add_vote cState c5Vote 100 201).2.votes.lookup "v1" = some c5Vote ∧
    (add_vote cState c5Vote 100 201).2.validator_feedback = [] := by
  decide

/-- C5 (amended): `add_vote` never modifies the feedback store, even when it
records a rejecting vote; feedback is appended only by the separate
`store_feedback` operation, under which a producer's entry accumulates
reasons in order until drained. -/
theorem add_vote_never_touches_feedback (s : ConsensusState) (vote : Vote)
    (stake thr : Nat) (pid r : String) :
    (process_vote s vote stake thr).2.validator_feedback =
      s.validator_feedback ∧
    (store_feedback s pid r).validator_feedback.lookup pid =
      some ((s.validator_feedback.lookup pid).getD [] ++ [r]) := by
  constructor
  · unfold process_vote
    dsimp only
    repeat' split
    all_goals rfl
  · exact feedbackPush_lookup_self s.validator_feedback pid r

/-- C6: when an `add_vote` call in an `Active` round, voting on the current
block, pushes the (saturating) approve tally to the threshold, that call
returns `Ok(true)` and completes the round, and every subsequent `add_vote`
before a new `start_voting_round` fails with the no-active-round error,
leaving the state untouched. -/
theorem approve_threshold_completes_round (s : ConsensusState) (b : Block)
    (vote : Vote) (stake thr : Nat) (rest : List (Vote × Nat))
    (hA : s.voting_state = .Active)
    (hB : s.current_block = some b)
    (hH : vote.block_hash = b.hash)
    (hT : thr ≤ (tallyStakes (votesInsert s.votes vote.agent_id vote)
      stake).1) :
    (add_vote s vote stake thr).1 = .ok true ∧
    (add_vote s vote stake thr).2.voting_state = .Completed ∧
    (run_votes (add_vote s vote stake thr).2 rest thr).1 =
      List.replicate rest.length
        (.error (.internal "No active voting round")) ∧
    (run_votes (add_vote s vote stake thr).2 rest thr).2 =
      (add_vote s vote stake thr).2 := by
  have hstep : add_vote s vote stake thr =
      (.ok true,
       { s with votes := votesInsert s.votes vote.agent_id vote,
                voting_state := .Completed }) := by
    unfold add_vote process_vote
    rw [hB]
    simp [hA, hH, hT]
  have hC : (add_vote s vote stake thr).2.voting_state = .Completed := by
    rw [hstep]
  have hrun := run_votes_not_active (add_vote s vote stake thr).2 rest thr
    (by rw [hC]; decide)
  refine ⟨by rw [hstep], hC, ?_, ?_⟩
  · rw [hrun]
  · rw [hrun]

theorem approve_threshold_completes_round_witness :
    (add_vote cState (cVote "v1" true) 100 100).1 = .ok true ∧
    (add_vote cState (cVote "v1" true) 100 100).2.voting_state =
      .Completed ∧
    (run_votes (add_vote cState (cVote "v1" true) 100 100).2
        [(cVote "v2" true, 100)] 100).1 =
      List.replicate 1 (.error (.internal "No active voting round")) ∧
    (run_votes (add_vote cState (cVote "v1" true) 100 100).2
        [(cVote "v2" true, 100)] 100).2 =
      (add_vote cState (cVote "v1" true) 100 100).2 :=
  approve_threshold_completes_round cState cBlock (cVote "v1" true) 100 100
    [(cVote "v2" true, 100)] rfl rfl rfl (by decide)

/-- C7: `start_voting_round` fails, changing nothing at all, exactly when a
round is `Active`; from `Inactive` or `Completed` it succeeds, installs the
block as the candidate, clears the vote map and activates the round. -/
theorem start_round_active_guard (s : ConsensusState) (block : Block) :
    (s.voting_state = .Active →
      start_voting_round s block =
        (.error (.internal
          "Cannot start new voting round while previous round is active"),
         s)) ∧
    (s.voting_state ≠ .Active →
      start_voting_round s block =
        (.ok (),
         { s with current_block := some block, votes := [],
                  voting_state := .Active })) := by
  constructor
  · intro h
    unfold start_voting_round
    rw [h]
  · intro h
    unfold start_voting_round
    split
    · rename_i hs
      exact absurd hs h
    · rfl

theorem start_round_active_guard_witness :
    start_voting_round cState cBlock =
      (.error (.internal
        "Cannot start new voting round while previous round is active"),
       cState) ∧
    start_voting_round ConsensusState.new cBlock =
      (.ok (), (⟨some cBlock, [], .Active, []⟩ : ConsensusState)) :=
  ⟨(start_round_active_guard cState cBlock).1 rfl,
   (start_round_active_guard ConsensusState.new cBlock).2 (by decide)⟩

/-- C8: under the reachable-state invariant (an `Active` round has a current
block), `add_vote` yields the no-active-round error iff the round is not
`Active`, and the wrong-block error iff the round is `Active` and the
vote's hash differs from the current block's; on either protocol-violation
error the state is fully unchanged, and on `InsufficientStake` the vote is
recorded, the round stays `Active` and the current block is unchanged. -/
theorem add_vote_error_semantics (s : ConsensusState) (vote : Vote)
    (stake thr : Nat)
    (hinv : s.voting_state = .Active → s.current_block.isSome = true) :
    ((process_vote s vote stake thr).1 =
        .error (.internal "No active voting round") ↔
      s.voting_state ≠ .Active) ∧
    ((process_vote s vote stake thr).1 =
        .error (.internal "Vote for wrong block") ↔
      (s.voting_state = .Active ∧
        ∃ b, s.current_block = some b ∧ vote.block_hash ≠ b.hash)) ∧
    (∀ msg, (process_vote s vote stake thr).1 = .error (.internal msg) →
      (process_vote s vote stake thr).2 = s) ∧
    ((process_vote s vote stake thr).1 = .error .insufficientStake →
      ((process_vote s vote stake thr).2.votes.lookup vote.agent_id =
          some vote ∧
        (process_vote s vote stake thr).2.voting_state = .Active ∧
        (process_vote s vote stake thr).2.current_block =
          s.current_block)) := by
  by_cases hA : s.voting_state = VotingState.Active
  · have hs := hinv hA
    cases hcb : s.current_block with
    | none =>
      rw [hcb] at hs
      simp at hs
    | some b =>
      by_cases hh : vote.block_hash = b.hash
      · have hred : process_vote s vote stake thr =
            (let votes := votesInsert s.votes vote.agent_id vote
             let t := tallyStakes votes stake
             if thr ≤ t.1 then
               (.ok true,
                { s with votes := votes, voting_state := .Completed })
             else if thr ≤ t.2 then
               (.ok false,
                { s with votes := votes, voting_state := .Completed })
             else (.error .insufficientStake, { s with votes := votes })) := by
          unfold process_vote
          rw [hcb]
          simp [hA, hh]
        rw [hred]
        dsimp only
        by_cases h1 : thr ≤
            (tallyStakes (votesInsert s.votes vote.agent_id vote) stake).1
        · simp only [h1, if_true]
          refine ⟨by simp [hA], by simp [hA, hcb, hh], ?_, ?_⟩
          · intro msg hmsg
            exact absurd hmsg (by simp)
          · intro hmsg
            exact absurd hmsg (by simp)
        · by_cases h2 : thr ≤
              (tallyStakes (votesInsert s.votes vote.agent_id vote) stake).2
          · simp only [h1, if_false, h2, if_true]
            refine ⟨by simp [hA], by simp [hA, hcb, hh], ?_, ?_⟩
            · intro msg hmsg
              exact absurd hmsg (by simp)
            · intro hmsg
              exact absurd hmsg (by simp)
          · simp only [h1, if_false, h2]
            refine ⟨by simp [hA], by simp [hA, hcb, hh], ?_, ?_⟩
            · intro msg hmsg
              exact absurd hmsg (by simp)
            · intro _
              exact ⟨votesInsert_lookup s.votes vote.agent_id vote, hA, hcb⟩
      · have hred : process_vote s vote stake thr =
            (.error (.internal "Vote for wrong block"), s) := by
          unfold process_vote
          rw [hcb]
          simp [hA, hh]
        rw [hred]
        refine ⟨by simp [hA], by simp [hA, hcb, hh], ?_, ?_⟩
        · intro msg hmsg
          rfl
        · intro hmsg
          exact absurd hmsg (by simp)
  · rw [process_vote_not_active s vote stake thr hA]
    refine ⟨by simp [hA], by simp [hA], ?_, ?_⟩
    · intro msg hmsg
      rfl
    · intro hmsg
      exact absurd hmsg (by simp)

theorem add_vote_error_semantics_witness :
    ((process_vote ConsensusState.new (cVote "v1" true) 100 201).1 =
        .error (.internal "No active voting round") ↔
      ConsensusState.new.voting_state ≠ .Active) ∧
    (process_vote ConsensusState.new (cVote "v1" true) 100 201).2 =
      ConsensusState.new :=
  ⟨(add_vote_error_semantics ConsensusState.new (cVote "v1" true) 100 201
      (by decide)).1,
   (add_vote_error_semantics ConsensusState.new (cVote "v1" true) 100 201
      (by decide)).2.2.1 "No active voting round" (by decide)⟩

/-- C9: `add_tx` keyed on the content hash of `(sender, nonce, payload)`:
a duplicate content hash is an `Ok` no-op leaving the pool fully unchanged
for any priority; a new transaction hitting the capacity bound fails with
the mempool-full error, changing nothing and evicting nothing; otherwise
the transaction is appended to the table with its priority and ingestion
timestamp. -/
theorem add_tx_spec (m : Mempool) (tx : Transaction) (priority now : Nat) :
    (m.containsKey (hash_tx tx) = true →
      m.add_tx tx priority now = (.ok (), m)) ∧
    (m.containsKey (hash_tx tx) = false → m.max_size ≤ m.txs.length →
      m.add_tx tx priority now = (.error (.internal "Mempool is full"), m)) ∧
    (m.containsKey (hash_tx tx) = false → m.txs.length < m.max_size →
      (m.add_tx tx priority now).1 = .ok () ∧
      (m.add_tx tx priority now).2.txs =
        m.txs ++ [(hash_tx tx, ⟨tx, now, priority⟩)] ∧
      (m.add_tx tx priority now).2.max_size = m.max_size) := by
  refine ⟨?_, ?_, ?_⟩
  · intro h
    unfold Mempool.add_tx
    simp [h]
  · intro h hfull
    unfold Mempool.add_tx
    simp [h, hfull]
  · intro h hlt
    unfold Mempool.add_tx
    simp [h, Nat.not_le.mpr hlt]

theorem add_tx_spec_witness :
    mempoolC1.add_tx (txPrio 10) 10 100 = (.ok (), mempoolC1) ∧
    (Mempool.new 0).add_tx (txPrio 1) 1 100 =
      (.error (.internal "Mempool is full"), Mempool.new 0) ∧
    ((mempoolC1.add_tx (txPrio 40) 40 103).1 = .ok () ∧
     (mempoolC1.add_tx (txPrio 40) 40 103).2.txs =
       mempoolC1.txs ++ [(hash_tx (txPrio 40), ⟨txPrio 40, 103, 40⟩)] ∧
     (mempoolC1.add_tx (txPrio 40) 40 103).2.max_size =
       mempoolC1.max_size) :=
  ⟨(add_tx_spec mempoolC1 (txPrio 10) 10 100).1 (by decide),
   (add_tx_spec (Mempool.new 0) (txPrio 1) 1 100).2.1 (by decide) (by decide),
   (add_tx_spec mempoolC1 (txPrio 40) 40 103).2.2 (by decide) (by decide)⟩

/-- C10: draining feedback returns the reasons accumulated for that
producer in storage order and removes them, so an immediate second drain
returns the empty sequence; other producers' entries are untouched, and
draining a producer with no stored feedback returns the empty sequence. -/
theorem feedback_drain_spec (s : ConsensusState) (pid q : String)
    (rs : List String) :
    (get_and_clear_feedback
        (rs.foldl (fun st r => store_feedback st pid r) s) pid).1 =
      (s.validator_feedback.lookup pid).getD [] ++ rs ∧
    (get_and_clear_feedback (get_and_clear_feedback s pid).2 pid).1 = [] ∧
    (q ≠ pid →
      (get_and_clear_feedback s pid).2.validator_feedback.lookup q =
        s.validator_feedback.lookup q) ∧
    (s.validator_feedback.lookup pid = none →
      (get_and_clear_feedback s pid).1 = []) := by
  refine ⟨?_, ?_, ?_, ?_⟩
  · induction rs generalizing s with
    | nil => simp [get_and_clear_feedback]
    | cons r rs ih =>
      rw [List.foldl_cons, ih (store_feedback s pid r)]
      simp only [store_feedback]
      rw [feedbackPush_lookup_self s.validator_feedback pid r]
      simp [List.append_assoc]
  · simp only [get_and_clear_feedback]
    rw [lookup_filterOut_self]
    rfl
  · intro hq
    simp only [get_and_clear_feedback]
    exact lookup_filterOut_ne s.validator_feedback pid q hq
  · intro hnone
    simp only [get_and_clear_feedback]
    rw [hnone]
    rfl

theorem feedback_drain_spec_witness :
    (get_and_clear_feedback
        (["r1", "r2"].foldl
          (fun st r => store_feedback st "alice" r) ConsensusState.new)
        "alice").1 =
      (ConsensusState.new.validator_feedback.lookup "alice").getD [] ++
        ["r1", "r2"] ∧
    (get_and_clear_feedback
        (get_and_clear_feedback ConsensusState.new "alice").2 "alice").1 =
      [] ∧
    (get_and_clear_feedback ConsensusState.new
        "alice").2.validator_feedback.lookup "bob" =
      ConsensusState.new.validator_feedback.lookup "bob" ∧
    (get_and_clear_feedback ConsensusState.new "alice").1 = [] :=
  have h := feedback_drain_spec ConsensusState.new "alice" "bob" ["r1", "r2"]
  ⟨h.1, h.2.1, h.2.2.1 (by decide), h.2.2.2 (by decide)⟩

end Chaos
